import Mathlib

/-!
Verification of the `imagetor` tensor-transform library (`src/imagetor/mod.rs`).

The library represents an image as a `Vec<Vec<Vec<f32>>>`: rows of pixels of
channel values.  We embed that data model as `List (List (List ℚ))`; `f32`
arithmetic is modelled by exact rational arithmetic, and the Rust numeric
casts (`as i32`, `as u8`, `as u32`) are modelled by explicit functions with
Rust's truncating/saturating semantics.  Rust indexing `v[i]` is modelled
by `List.getD` (total, with a default); the claims are stated under the
in-bounds hypotheses that make the Rust code panic-free, and the dedicated
`*_checked` variants (which use `List.getElem?` and fail on any
out-of-bounds access) are used to prove panic-freedom itself.
In-place mutation (`&mut Vec<..>`) is modelled by returning the new value;
`addwatermark`, the one fallible operation, returns its `Result` paired
with the final state of the mutated tensor.
-/

namespace Imagetor

abbrev Pixel : Type := List ℚ

abbrev Row : Type := List Pixel

abbrev Tensor : Type := List Row

/-- Constant `CHANNELS: usize = 4` from the source. -/
def CHANNELS : ℕ := 4

/-- Width of a tensor, as the source computes it: `tensor[0].len()`
(the source panics on an empty tensor; we use the empty-row default). -/
def width (t : Tensor) : ℕ := (t.headD []).length

/-- Height of a tensor: `tensor.len()`. -/
def height (t : Tensor) : ℕ := t.length

/-- Channel `c` of the pixel at row `y`, column `x` (Rust `tensor[y][x][c]`,
modelled totally with default `0`). -/
def px (t : Tensor) (y x c : ℕ) : ℚ := ((t.getD y []).getD x []).getD c 0

/-- Rust `as i32` applied to a (finite) `f32`, modelled on exact rationals:
truncation toward zero.  (The i32 saturation bounds are never reached at
the uses in this file.) -/
def f32_as_i32 (q : ℚ) : ℤ := Int.sign q.num * ((q.num.natAbs / q.den : ℕ) : ℤ)

/-- Rust `as u8` applied to an `f32`: saturating truncation into `[0, 255]`,
with NaN mapped to `0`.  `none` models NaN; a finite float is `some q`. -/
def f32_as_u8 : Option ℚ → ℕ
  | none => 0
  | some q => if q < 0 then 0 else min 255 (Int.toNat ⌊q⌋)

/-- Rust `as u32` applied to a (finite) `f32`: saturating truncation into
`[0, 2^32)`. -/
def f32_as_u32 (q : ℚ) : ℕ := if q < 0 then 0 else min (2 ^ 32 - 1) (Int.toNat ⌊q⌋)

/-- A decoded raster image (the `image::DynamicImage` collaborator):
dimensions plus per-pixel channel bytes, `get_pixel x y` being the four
RGBA bytes at column `x`, row `y`. -/
structure DynImage where
  width : ℕ
  height : ℕ
  get_pixel : ℕ → ℕ → List ℕ

/-- A decoded image is valid when every in-range pixel has exactly four
channel bytes, each in `[0, 256)`. -/
def DynImage.Valid (img : DynImage) : Prop :=
  ∀ x < img.width, ∀ y < img.height,
    (img.get_pixel x y).length = 4 ∧ ∀ b ∈ img.get_pixel x y, b < 256

instance (img : DynImage) : Decidable img.Valid := by
  unfold DynImage.Valid
  infer_instance

/-- Source `to_tensor`: for every pixel, each of the four channel bytes is
divided by `255.0`. -/
def to_tensor (image : DynImage) : Tensor :=
  (List.range image.height).map fun y =>
    (List.range image.width).map fun x =>
      (image.get_pixel x y).map fun c : ℕ => (c : ℚ) / 255

/-- An RGBA output buffer (the `image::ImageBuffer<Rgba<u8>, _>`
collaborator): dimensions plus per-pixel channel bytes. -/
structure ImageBuf where
  width : ℕ
  height : ℕ
  get_pixel : ℕ → ℕ → List ℕ

/-- Source `to_image_buffer`: a `width × height` buffer (width is
`tensor[0].len()`, height `tensor.len()`) where every pixel `(x, y)` is
`Rgba [r, g, b, a]`, each channel being `(tensor[y][x][c] * 255.0) as u8`. -/
def to_image_buffer (tensor : Tensor) : ImageBuf :=
  { width := (tensor.headD []).length
    height := tensor.length
    get_pixel := fun x y =>
      [ f32_as_u8 (some (px tensor y x 0 * 255))
      , f32_as_u8 (some (px tensor y x 1 * 255))
      , f32_as_u8 (some (px tensor y x 2 * 255))
      , f32_as_u8 (some (px tensor y x 3 * 255)) ] }

/-- Bounds-checking shadow of `to_image_buffer`: performs exactly the tensor
reads of the source (`tensor[0].len()`, then `tensor[y][x][0..=3]` for every
`y < height`, `x < width`) through `getElem?`, failing on any read that
would make the Rust code panic.  On success it returns the grid of computed
pixels, row-major. -/
def to_image_buffer_checked (tensor : Tensor) : Option (List (List (List ℕ))) := do
  let row0 ← tensor[0]?
  let w := row0.length
  let h := tensor.length
  (List.range h).mapM fun y => do
    let row ← tensor[y]?
    (List.range w).mapM fun x => do
      let p ← row[x]?
      let r ← p[0]?
      let g ← p[1]?
      let b ← p[2]?
      let a ← p[3]?
      pure [ f32_as_u8 (some (r * 255)), f32_as_u8 (some (g * 255))
           , f32_as_u8 (some (b * 255)), f32_as_u8 (some (a * 255)) ]

/-- Source `mean_center`: the uniform scale factor, `1.0` unless the source
dimensions `(tx, ty)` exceed the target `(dx, dy)` in some axis, in which
case `min (dx / tx) (dy / ty)`. -/
def mean_center (tx ty dx dy : ℕ) : ℚ :=
  if tx > dx ∨ ty > dy then min ((dx : ℚ) / (tx : ℚ)) ((dy : ℚ) / (ty : ℚ)) else 1

/-- Dimensions that `fit_center` requests from the collaborator resampler:
`((width1 as f32 * factor) as u32, (height1 as f32 * factor) as u32)` with
`factor = mean_center width1 height1 width2 height2`.  The actual pixel
resampling (`image.resize` with Lanczos3) is the codec collaborator,
outside this core. -/
def fit_center_dims (width1 height1 width2 height2 : ℕ) : ℕ × ℕ :=
  let factor := mean_center width1 height1 width2 height2
  (f32_as_u32 ((width1 : ℚ) * factor), f32_as_u32 ((height1 : ℚ) * factor))

/-- Source `resize`: bilinear resampling of a tensor to `width × height`,
built over a zero-initialised destination; destination pixels whose mapped
source floor coordinates fail the interior test are left at zero
(`continue`).  `old_width - 1` is the source's `usize` subtraction
(claims are stated for non-empty tensors, where it cannot underflow). -/
def resize (tensor : Tensor) (width height : ℕ) : Tensor :=
  let old_width := (tensor.headD []).length
  let old_height := tensor.length
  (List.range height).map fun y : ℕ =>
    (List.range width).map fun x : ℕ =>
      let old_x : ℚ := ((x : ℚ) * (old_width : ℚ)) / (width : ℚ)
      let old_y : ℚ := ((y : ℚ) * (old_height : ℚ)) / (height : ℚ)
      let x0 : ℤ := f32_as_i32 old_x
      let y0 : ℤ := f32_as_i32 old_y
      let dx : ℚ := old_x - (x0 : ℚ)
      let dy : ℚ := old_y - (y0 : ℚ)
      if x0 < 0 ∨ ((old_width - 1 : ℕ) : ℤ) ≤ x0 ∨ y0 < 0 ∨ ((old_height - 1 : ℕ) : ℤ) ≤ y0 then
        List.replicate CHANNELS 0
      else
        (List.range CHANNELS).map fun c =>
          (1 - dx) * (1 - dy) * px tensor y0.toNat x0.toNat c
            + dx * (1 - dy) * px tensor y0.toNat (x0 + 1).toNat c
            + (1 - dx) * dy * px tensor (y0 + 1).toNat x0.toNat c
            + dx * dy * px tensor (y0 + 1).toNat (x0 + 1).toNat c

/-- One blended pixel of `addwatermark`: channels `c < CHANNELS - 1` become
`(1 - alpha) * p[c] + alpha * logo[y][xl][c]` with
`alpha = logoimage[y][xl][3]`, channel `3` is then forced to `1.0`, and any
further channels are untouched. -/
def blend_pixel (logoimage : Tensor) (y xl : ℕ) (p : Pixel) : Pixel :=
  (List.range p.length).map fun c =>
    if c < CHANNELS - 1 then
      (1 - px logoimage y xl 3) * p.getD c 0 + px logoimage y xl 3 * px logoimage y xl c
    else if c = 3 then (1 : ℚ)
    else p.getD c 0

/-- The mutation performed by `addwatermark` past its empty-input check:
rows `offset_y ≤ i < offset_y + lheight` (the `skip(offset_y).take(lheight)`
window) have columns `offset_x ≤ x < offset_x + lwidth` alpha-blended with
the logo pixel `(i - offset_y, x - offset_x)`; all other rows and columns
are untouched.  The offsets use Rust's `usize` subtraction and division
(claims are stated where the subtraction cannot underflow). -/
def addwatermark_body (logoimage basedimage : Tensor) : Tensor :=
  let bwidth := (basedimage.headD []).length
  let bheight := basedimage.length
  let lwidth := (logoimage.headD []).length
  let lheight := logoimage.length
  let offset_x := (bwidth - lwidth) / 2
  let offset_y := (bheight - lheight) / 2
  (List.range bheight).map fun i =>
    let row := basedimage.getD i []
    if offset_y ≤ i ∧ i < offset_y + lheight then
      (List.range row.length).map fun x =>
        if offset_x ≤ x ∧ x < offset_x + lwidth then
          blend_pixel logoimage (i - offset_y) (x - offset_x) (row.getD x [])
        else row.getD x []
    else row

/-- Source `addwatermark`: errors with `ArrayEmptyError` (displayed
`"Array is empty"`) when either tensor has zero rows, leaving the base
untouched; otherwise blends the centered logo into the base.  The returned
pair is (the `Result`, the final state of the `&mut` base tensor). -/
def addwatermark (logoimage basedimage : Tensor) : Except String Unit × Tensor :=
  if logoimage.length = 0 ∨ basedimage.length = 0 then
    (Except.error "Array is empty", basedimage)
  else
    (Except.ok (), addwatermark_body logoimage basedimage)

/-- Bounds-checking shadow of the non-error path of `addwatermark`:
performs the source's reads and writes (`basedimage[0]`, `logoimage[0]`,
the `usize` offset subtractions, `row[x]`, `row[x][c]` for `c ≤ 3`,
`logoimage[y][x - offset_x][3]` and `[c]`) through `getElem?`, failing
whenever the Rust code would panic (index out of bounds, or offset
underflow in a checked build).  On success it returns the final base. -/
def addwatermark_checked (logoimage basedimage : Tensor) : Option Tensor := do
  let brow0 ← basedimage[0]?
  let lrow0 ← logoimage[0]?
  let bwidth := brow0.length
  let bheight := basedimage.length
  let lwidth := lrow0.length
  let lheight := logoimage.length
  if lwidth ≤ bwidth ∧ lheight ≤ bheight then
    let offset_x := (bwidth - lwidth) / 2
    let offset_y := (bheight - lheight) / 2
    (List.range bheight).mapM fun i => do
      let row ← basedimage[i]?
      if offset_y ≤ i ∧ i < offset_y + lheight then
        (List.range row.length).mapM fun x =>
          if offset_x ≤ x ∧ x < offset_x + lwidth then do
            let lrow ← logoimage[i - offset_y]?
            let lpx ← lrow[x - offset_x]?
            let _alpha ← lpx[3]?
            let p ← row[x]?
            if 3 < p.length then
              pure (blend_pixel logoimage (i - offset_y) (x - offset_x) p)
            else none
          else row[x]?
      else pure row
  else none

/-- The element-wise row copy inside `flip_vertical`'s swap: for
`x in 0..width`, `dst[x] = src[x]`. -/
def copy_row (dst src : Row) (w : ℕ) : Row :=
  (List.range w).foldl (fun d x => d.set x (src.getD x [])) dst

/-- Source `flip_vertical`: for `y in 0..height/2`, clone rows `y` and
`height - y - 1` and copy them element-wise into each other's place
(`width` and `height` are read once, before the loop). -/
def flip_vertical (tensor : Tensor) : Tensor :=
  let w := (tensor.headD []).length
  let h := tensor.length
  (List.range (h / 2)).foldl
    (fun acc y =>
      let top_row := acc.getD y []
      let bottom_row := acc.getD (h - y - 1) []
      (acc.set y (copy_row top_row bottom_row w)).set (h - y - 1)
        (copy_row bottom_row top_row w))
    tensor

/-- One iteration of a symmetric in-place swap loop over a list: swap the
entries at `k` and `n - k - 1`. -/
def swap_step (d : α) (n : ℕ) (l : List α) (k : ℕ) : List α :=
  (l.set k (l.getD (n - k - 1) d)).set (n - k - 1) (l.getD k d)

/-- The full swap loop: for `k in 0..n/2`, swap entries `k` and
`n - k - 1`. -/
def swap_half (d : α) (n : ℕ) (l : List α) : List α :=
  (List.range (n / 2)).foldl (swap_step d n) l

/-- Source `flip_horizontal`: in every row, for `x in 0..width/2`, clone the
pixels at `x` and `width - x - 1` and swap them (whole-pixel assignment;
`width` is row 0's length, read once). -/
def flip_horizontal (tensor : Tensor) : Tensor :=
  let w := (tensor.headD []).length
  let h := tensor.length
  (List.range h).map fun y => swap_half [] w (tensor.getD y [])

/-- Rectangularity at width `w`: every row has length `w` (the PixelTensor
data-model invariant on rows). -/
def Rect (t : Tensor) (w : ℕ) : Prop := ∀ r ∈ t, r.length = w

/-- Full PixelTensor well-formedness: rectangular at the tensor's own width
and every pixel has exactly `CHANNELS = 4` channel values. -/
def WellFormed (t : Tensor) : Prop :=
  Rect t (width t) ∧ ∀ r ∈ t, ∀ p ∈ r, p.length = 4

instance (t : Tensor) (w : ℕ) : Decidable (Rect t w) := by
  unfold Rect; infer_instance

instance (t : Tensor) : Decidable (WellFormed t) := by
  unfold WellFormed; exact instDecidableAnd

/-! Concrete inputs used to exercise the theorems below. -/

/-- A 2×2 tensor with one-channel pixels carrying distinct markers. -/
def T22 : Tensor := [[[1], [2]], [[3], [4]]]

/-- A 2×2 four-channel tensor with distinct channel values. -/
def T224 : Tensor :=
  [ [[1, 2, 3, 4], [5, 6, 7, 8]]
  , [[9, 10, 11, 12], [13, 14, 15, 16]] ]

/-- A 1×1 logo with a half-transparent pixel. -/
def logo1 : Tensor := [[[1 / 2, 0, 1, 1 / 2]]]

/-- A 1×1 base tensor. -/
def base1 : Tensor := [[[1, 0, 1 / 3, 0]]]

/-- The spec's 10×10 fully opaque solid red overlay. -/
def logo10 : Tensor := List.replicate 10 (List.replicate 10 [1, 0, 0, 1])

/-- The spec's 20×20 solid white base. -/
def base20 : Tensor := List.replicate 20 (List.replicate 20 [1, 1, 1, 1])

/-- The expected result of watermarking `base20` with `logo10`: pure red
with alpha 1 on the centered square `[5, 15) × [5, 15)`, white elsewhere. -/
def watermarked20 : Tensor :=
  (List.range 20).map fun i =>
    (List.range 20).map fun x =>
      if 5 ≤ i ∧ i < 15 ∧ 5 ≤ x ∧ x < 15 then [1, 0, 0, 1] else [1, 1, 1, 1]

/-- A 1×1 decoded image with one byte per channel boundary case. -/
def img1 : DynImage := ⟨1, 1, fun _ _ => [0, 17, 254, 255]⟩

/-- A 1×1 tensor whose channel values stray outside `[0, 1]`. -/
def tneg : Tensor := [[[2, -3, 1 / 2, 0]]]

/-! Access lemmas for the list-based embedding. -/

theorem getD_range_map {α : Type} (f : ℕ → α) (d : α) {i n : ℕ} (h : i < n) :
    ((List.range n).map f).getD i d = f i := by
  simp [List.getD_eq_getElem?_getD, List.getElem?_map, List.getElem?_range h]

theorem getD_range_map_default {α : Type} (f : ℕ → α) (d : α) {i n : ℕ} (h : n ≤ i) :
    ((List.range n).map f).getD i d = d := by
  apply List.getD_eq_default
  simpa using h

theorem getD_mem {α : Type} {t : List α} {i : ℕ} (d : α) (h : i < t.length) :
    t.getD i d ∈ t := by
  rw [List.getD_eq_getElem t d h]
  exact List.getElem_mem h

theorem range_map_getD {α β : Type} (d : α) (f : α → β) :
    ∀ t : List α, (List.range t.length).map (fun i => f (t.getD i d)) = t.map f := by
  intro t
  induction t with
  | nil => rfl
  | cons a t ih =>
    rw [List.length_cons, List.range_succ_eq_map, List.map_cons, List.map_map, List.map_cons]
    simp only [List.getD_cons_zero, Function.comp_def, Nat.succ_eq_add_one, List.getD_cons_succ]
    rw [ih]

theorem mapM_option_eq_map {α β : Type} {f : α → Option β} {g : α → β} :
    ∀ {l : List α}, (∀ a ∈ l, f a = some (g a)) → l.mapM f = some (l.map g) := by
  intro l
  induction l with
  | nil => intro _; rfl
  | cons a t ih =>
    intro h
    rw [List.mapM_cons, h a (List.mem_cons_self a t), ih fun x hx => h x (List.mem_cons_of_mem a hx)]
    rfl

/-! The swap loops of the two flips, reduced to `List.reverse`. -/

theorem foldl_set_cons {α : Type} (g : ℕ → α) (c : α) :
    ∀ (L : List ℕ) (l : List α),
      L.foldl (fun a x => a.set (x + 1) (g x)) (c :: l) =
        c :: L.foldl (fun a x => a.set x (g x)) l := by
  intro L
  induction L with
  | nil => intro l; rfl
  | cons b L ih =>
    intro l
    rw [List.foldl_cons, List.foldl_cons, List.set_cons_succ, ih]

theorem copy_row_eq : ∀ (w : ℕ) (dst src : Row), dst.length = w → src.length = w →
    copy_row dst src w = src := by
  intro w
  induction w with
  | zero =>
    intro dst src hd hs
    rw [List.length_eq_zero] at hd hs
    subst hd
    subst hs
    rfl
  | succ n ih =>
    intro dst src hd hs
    match dst, src with
    | d :: ds, s :: ss =>
      unfold copy_row
      rw [List.range_succ_eq_map, List.foldl_cons, List.foldl_map]
      simp only [List.getD_cons_zero, List.set_cons_zero, Nat.succ_eq_add_one, List.getD_cons_succ]
      rw [foldl_set_cons (fun x => ss.getD x []) s (List.range n) ds]
      have hds : ds.length = n := by simpa using hd
      have hss : ss.length = n := by simpa using hs
      rw [show ((List.range n).foldl (fun a x => a.set x (ss.getD x [])) ds) =
            copy_row ds ss n from rfl, ih ds ss hds hss]

theorem length_foldl_swap {α : Type} (d : α) (n : ℕ) :
    ∀ (L : List ℕ) (l : List α), (L.foldl (swap_step d n) l).length = l.length := by
  intro L
  induction L with
  | nil => intro l; rfl
  | cons k L ih =>
    intro l
    rw [List.foldl_cons, ih]
    simp [swap_step]

theorem swap_half_invariant {α : Type} (d : α) (l : List α) :
    ∀ k, k ≤ l.length / 2 →
      ∀ i, ((List.range k).foldl (swap_step d l.length) l)[i]? =
        if i < k ∨ (l.length - i - 1 < k ∧ i < l.length) then l[l.length - i - 1]?
        else l[i]? := by
  intro k
  induction k with
  | zero =>
    intro _ i
    simp
  | succ k ih =>
    intro hk i
    have hk' : k ≤ l.length / 2 := Nat.le_of_succ_le hk
    have h2 : 2 * k + 2 ≤ l.length := by omega
    rw [List.range_succ, List.foldl_append, List.foldl_cons, List.foldl_nil, swap_step]
    have hlen : ((List.range k).foldl (swap_step d l.length) l).length = l.length :=
      length_foldl_swap d l.length (List.range k) l
    have hgk : ((List.range k).foldl (swap_step d l.length) l).getD k d = l.getD k d := by
      rw [List.getD_eq_getElem?_getD, ih hk' k, if_neg (by omega), ← List.getD_eq_getElem?_getD]
    have hgk2 : ((List.range k).foldl (swap_step d l.length) l).getD (l.length - k - 1) d =
        l.getD (l.length - k - 1) d := by
      rw [List.getD_eq_getElem?_getD, ih hk' (l.length - k - 1), if_neg (by omega),
        ← List.getD_eq_getElem?_getD]
    rw [List.getElem?_set, List.getElem?_set, List.length_set, hlen, hgk, hgk2]
    by_cases h1 : l.length - k - 1 = i
    · rw [if_pos h1, if_pos (by omega : l.length - k - 1 < l.length), if_pos (by omega)]
      have hki : l.length - i - 1 = k := by omega
      rw [hki, List.getD_eq_getElem l d (by omega : k < l.length),
        List.getElem?_eq_getElem (by omega : k < l.length)]
    · rw [if_neg h1]
      by_cases h3 : k = i
      · rw [if_pos h3, if_pos (by omega : k < l.length), if_pos (by omega)]
        have hki : l.length - i - 1 = l.length - k - 1 := by omega
        rw [hki, List.getD_eq_getElem l d (by omega : l.length - k - 1 < l.length),
          List.getElem?_eq_getElem (by omega : l.length - k - 1 < l.length)]
      · rw [if_neg h3, ih hk' i]
        have hiff : (i < k ∨ (l.length - i - 1 < k ∧ i < l.length)) ↔
            (i < k + 1 ∨ (l.length - i - 1 < k + 1 ∧ i < l.length)) := by omega
        simp only [hiff]

theorem swap_half_eq_reverse {α : Type} (d : α) (l : List α) :
    swap_half d l.length l = l.reverse := by
  apply List.ext_getElem?
  intro i
  unfold swap_half
  rw [swap_half_invariant d l (l.length / 2) le_rfl i]
  by_cases hi : i < l.length
  · rw [List.getElem?_reverse hi]
    by_cases hcond : i < l.length / 2 ∨ (l.length - i - 1 < l.length / 2 ∧ i < l.length)
    · rw [if_pos hcond]
      have : l.length - i - 1 = l.length - 1 - i := by omega
      rw [this]
    · rw [if_neg hcond]
      have : i = l.length - 1 - i := by omega
      rw [← this]
  · have hle : l.length ≤ i := Nat.le_of_not_lt hi
    rw [if_neg (by omega), List.getElem?_eq_none hle, List.getElem?_eq_none (by simpa using hle)]

theorem flip_vertical_foldl_eq (t : Tensor) (hrect : Rect t (width t)) :
    ∀ k, k ≤ t.length / 2 →
      ((List.range k).foldl
        (fun acc y =>
          let top_row := acc.getD y []
          let bottom_row := acc.getD (t.length - y - 1) []
          (acc.set y (copy_row top_row bottom_row (width t))).set (t.length - y - 1)
            (copy_row bottom_row top_row (width t))) t) =
        ((List.range k).foldl (swap_step [] t.length) t) ∧
      Rect ((List.range k).foldl (swap_step [] t.length) t) (width t) ∧
      ((List.range k).foldl (swap_step [] t.length) t).length = t.length := by
  intro k
  induction k with
  | zero => exact fun _ => ⟨rfl, hrect, rfl⟩
  | succ k ih =>
    intro hk
    obtain ⟨heq, hrectF, hlenF⟩ := ih (Nat.le_of_succ_le hk)
    have h2 : 2 * k + 2 ≤ t.length := by omega
    have hkl : k < t.length := by omega
    have hkl2 : t.length - k - 1 < t.length := by omega
    set F := (List.range k).foldl (swap_step [] t.length) t with hF
    have htop : (F.getD k []).length = width t :=
      hrectF _ (getD_mem _ (by rw [hlenF]; exact hkl))
    have hbot : (F.getD (t.length - k - 1) []).length = width t :=
      hrectF _ (getD_mem _ (by rw [hlenF]; exact hkl2))
    refine ⟨?_, ?_, ?_⟩
    · rw [List.range_succ, List.foldl_append, List.foldl_cons, List.foldl_nil,
        List.foldl_append, List.foldl_cons, List.foldl_nil, heq, ← hF]
      show (F.set k (copy_row (F.getD k []) (F.getD (t.length - k - 1) []) (width t))).set
          (t.length - k - 1) (copy_row (F.getD (t.length - k - 1) []) (F.getD k []) (width t)) =
        swap_step [] t.length F k
      rw [copy_row_eq (width t) _ _ htop hbot, copy_row_eq (width t) _ _ hbot htop, swap_step]
    · rw [List.range_succ, List.foldl_append, List.foldl_cons, List.foldl_nil, ← hF]
      intro r hr
      rw [swap_step] at hr
      rcases List.mem_or_eq_of_mem_set hr with hr1 | hr1
      · rcases List.mem_or_eq_of_mem_set hr1 with hr2 | hr2
        · exact hrectF r hr2
        · rw [hr2]; exact hbot
      · rw [hr1]; exact htop
    · rw [List.range_succ, List.foldl_append, List.foldl_cons, List.foldl_nil, ← hF,
        swap_step, List.length_set, List.length_set, hlenF]

theorem flip_vertical_eq_reverse (t : Tensor) (hrect : Rect t (width t)) :
    flip_vertical t = t.reverse := by
  refine Eq.trans ?_ (swap_half_eq_reverse [] t)
  exact (flip_vertical_foldl_eq t hrect (t.length / 2) le_rfl).1

theorem flip_horizontal_eq_map_reverse (t : Tensor) (hrect : Rect t (width t)) :
    flip_horizontal t = t.map List.reverse := by
  show (List.range t.length).map (fun y => swap_half [] (width t) (t.getD y [])) =
    t.map List.reverse
  have hrow : ∀ y ∈ List.range t.length,
      swap_half [] (width t) (t.getD y []) = (t.getD y []).reverse := by
    intro y hy
    have hmem : t.getD y [] ∈ t := getD_mem _ (List.mem_range.mp hy)
    rw [← hrect _ hmem]
    exact swap_half_eq_reverse [] (t.getD y [])
  rw [List.map_congr_left hrow]
  exact range_map_getD [] List.reverse t

theorem width_reverse (t : Tensor) (hrect : Rect t (width t)) : width t.reverse = width t := by
  cases t with
  | nil => rfl
  | cons a t' =>
    have hne : (a :: t').reverse ≠ [] := by simp
    obtain ⟨b, L, hb⟩ := List.exists_cons_of_ne_nil hne
    have hmem : b ∈ a :: t' := by
      rw [← List.mem_reverse, hb]
      exact List.mem_cons_self b L
    show ((a :: t').reverse.headD []).length = width (a :: t')
    rw [hb]
    exact hrect b hmem

theorem rect_reverse (t : Tensor) (hrect : Rect t (width t)) :
    Rect t.reverse (width t.reverse) := by
  intro r hr
  rw [width_reverse t hrect]
  exact hrect r (List.mem_reverse.mp hr)

theorem width_map_reverse (t : Tensor) (hrect : Rect t (width t)) :
    width (t.map List.reverse) = width t := by
  cases t with
  | nil => rfl
  | cons a t' =>
    show (a.reverse).length = width (a :: t')
    rw [List.length_reverse]
    exact hrect a (List.mem_cons_self a t')

theorem rect_map_reverse (t : Tensor) (hrect : Rect t (width t)) :
    Rect (t.map List.reverse) (width (t.map List.reverse)) := by
  intro r hr
  rw [width_map_reverse t hrect]
  obtain ⟨s, hs, rfl⟩ := List.mem_map.mp hr
  rw [List.length_reverse]
  exact hrect s hs

theorem flatten_map_reverse_perm : ∀ t : Tensor, (t.map List.reverse).flatten.Perm t.flatten := by
  intro t
  induction t with
  | nil => exact List.Perm.refl _
  | cons a t ih =>
    rw [List.map_cons, List.flatten_cons, List.flatten_cons]
    exact (a.reverse_perm).append ih

/-- C4: double flips are the identity, and each single flip is a pure
permutation of pixel positions: `flip_vertical` sends row `y` to row
`height - 1 - y` (so the middle row of an odd height is fixed) and
preserves the multiset of pixels, and `flip_horizontal` sends column `x` of
each row to column `width - 1 - x` (middle column fixed for odd width) and
preserves the multiset of pixels.  Tensors are the data model's
PixelTensors, i.e. rectangular. -/
theorem C4_flip_involutions (t : Tensor) (hrect : Rect t (width t)) :
    flip_vertical (flip_vertical t) = t ∧
    flip_horizontal (flip_horizontal t) = t ∧
    (∀ y < height t, (flip_vertical t)[y]? = t[height t - 1 - y]?) ∧
    (∀ y < height t, ∀ x < width t,
      ((flip_horizontal t).getD y []).getD x [] = (t.getD y []).getD (width t - 1 - x) []) ∧
    (flip_vertical t).flatten.Perm t.flatten ∧
    (flip_horizontal t).flatten.Perm t.flatten := by
  refine ⟨?_, ?_, ?_, ?_, ?_, ?_⟩
  · rw [flip_vertical_eq_reverse t hrect,
      flip_vertical_eq_reverse t.reverse (rect_reverse t hrect), List.reverse_reverse]
  · rw [flip_horizontal_eq_map_reverse t hrect,
      flip_horizontal_eq_map_reverse _ (rect_map_reverse t hrect), List.map_map]
    simp
  · intro y hy
    rw [flip_vertical_eq_reverse t hrect, List.getElem?_reverse (show y < t.length from hy)]
    rfl
  · intro y hy x hx
    rw [flip_horizontal_eq_map_reverse t hrect]
    have hyl : y < t.length := hy
    have hrow : (t.getD y []).length = width t := hrect _ (getD_mem _ hyl)
    rw [List.getD_eq_getElem (t.map List.reverse) [] (by simpa using hyl),
      List.getElem_map, ← List.getD_eq_getElem t [] hyl]
    rw [List.getD_eq_getElem _ [] (by rw [List.length_reverse, hrow]; exact hx),
      List.getElem_reverse, ← List.getD_eq_getElem _ []]
    rw [hrow]
  · rw [flip_vertical_eq_reverse t hrect]
    exact (t.reverse_perm).flatten
  · rw [flip_horizontal_eq_map_reverse t hrect]
    exact flatten_map_reverse_perm t

theorem C4_flip_involutions_witness :
    Rect T22 (width T22) ∧
    (flip_vertical (flip_vertical T22) = T22 ∧
      flip_horizontal (flip_horizontal T22) = T22 ∧
      (∀ y < height T22, (flip_vertical T22)[y]? = T22[height T22 - 1 - y]?) ∧
      (∀ y < height T22, ∀ x < width T22,
        ((flip_horizontal T22).getD y []).getD x [] =
          (T22.getD y []).getD (width T22 - 1 - x) []) ∧
      (flip_vertical T22).flatten.Perm T22.flatten ∧
      (flip_horizontal T22).flatten.Perm T22.flatten) :=
  ⟨by decide, C4_flip_involutions T22 (by decide)⟩

/-- C3: `addwatermark` reports the empty-input error exactly when the logo
or the base has zero rows; in the error case the base is returned
untouched, and with both inputs non-empty the call succeeds.  (The source's
`ArrayEmptyError` displays as the string `"Array is empty"`, which is how
the error is modelled.) -/
theorem C3_addwatermark_empty_error (logoimage basedimage : Tensor) :
    ((addwatermark logoimage basedimage).1 = Except.error "Array is empty" ↔
      logoimage.length = 0 ∨ basedimage.length = 0) ∧
    ((logoimage.length = 0 ∨ basedimage.length = 0) →
      (addwatermark logoimage basedimage).2 = basedimage) ∧
    (logoimage.length ≠ 0 → basedimage.length ≠ 0 →
      (addwatermark logoimage basedimage).1 = Except.ok ()) := by
  unfold addwatermark
  by_cases h : logoimage.length = 0 ∨ basedimage.length = 0
  · rw [if_pos h]
    exact ⟨Iff.intro (fun _ => h) (fun _ => rfl), fun _ => rfl,
      fun h1 h2 => absurd h (not_or.mpr ⟨h1, h2⟩)⟩
  · rw [if_neg h]
    exact ⟨Iff.intro (fun he => Except.noConfusion he) (fun hor => absurd hor h),
      fun hor => absurd hor h, fun _ _ => rfl⟩

theorem C3_addwatermark_empty_error_witness :
    (((addwatermark [] base1).1 = Except.error "Array is empty" ↔
      List.length ([] : Tensor) = 0 ∨ base1.length = 0) ∧
    ((List.length ([] : Tensor) = 0 ∨ base1.length = 0) →
      (addwatermark [] base1).2 = base1) ∧
    (List.length ([] : Tensor) ≠ 0 → base1.length ≠ 0 →
      (addwatermark [] base1).1 = Except.ok ())) ∧
    (((addwatermark logo1 base1).1 = Except.error "Array is empty" ↔
      logo1.length = 0 ∨ base1.length = 0) ∧
    ((logo1.length = 0 ∨ base1.length = 0) → (addwatermark logo1 base1).2 = base1) ∧
    (logo1.length ≠ 0 → base1.length ≠ 0 →
      (addwatermark logo1 base1).1 = Except.ok ())) :=
  ⟨C3_addwatermark_empty_error [] base1, C3_addwatermark_empty_error logo1 base1⟩

theorem mean_center_nonneg (tx ty dx dy : ℕ) : 0 ≤ mean_center tx ty dx dy := by
  unfold mean_center
  split
  · exact le_min (by positivity) (by positivity)
  · exact zero_le_one

theorem mean_center_le_one (tx ty dx dy : ℕ) : mean_center tx ty dx dy ≤ 1 := by
  unfold mean_center
  split
  · rename_i hcond
    rcases hcond with hc | hc
    · refine le_trans (min_le_left _ _) ?_
      rw [div_le_one (by exact_mod_cast (by omega : 0 < tx))]
      exact_mod_cast Nat.le_of_lt hc
    · refine le_trans (min_le_right _ _) ?_
      rw [div_le_one (by exact_mod_cast (by omega : 0 < ty))]
      exact_mod_cast Nat.le_of_lt hc
  · exact le_refl 1

/-- C5: `fit_center` computes `factor = 1.0` unless the source exceeds the
target in some axis, in which case `factor` is the minimum of the two
target/source ratios; the requested dimensions are the floors of
`source.dim * factor`; and when the source fits inside the target the
requested dimensions are exactly the source's (no upscaling).  The
dimension bounds are the `u32` range of the Rust inputs. -/
theorem C5_fit_center_dims (w1 h1 w2 h2 : ℕ) (hw1 : w1 < 2 ^ 32) (hh1 : h1 < 2 ^ 32) :
    mean_center w1 h1 w2 h2 =
      (if w1 > w2 ∨ h1 > h2 then min ((w2 : ℚ) / (w1 : ℚ)) ((h2 : ℚ) / (h1 : ℚ)) else 1) ∧
    (fit_center_dims w1 h1 w2 h2).1 = Int.toNat ⌊(w1 : ℚ) * mean_center w1 h1 w2 h2⌋ ∧
    (fit_center_dims w1 h1 w2 h2).2 = Int.toNat ⌊(h1 : ℚ) * mean_center w1 h1 w2 h2⌋ ∧
    (w1 ≤ w2 → h1 ≤ h2 → fit_center_dims w1 h1 w2 h2 = (w1, h1)) := by
  have hf0 := mean_center_nonneg w1 h1 w2 h2
  have hf1 := mean_center_le_one w1 h1 w2 h2
  have hgen : ∀ n : ℕ, n < 2 ^ 32 →
      f32_as_u32 ((n : ℚ) * mean_center w1 h1 w2 h2) =
        Int.toNat ⌊(n : ℚ) * mean_center w1 h1 w2 h2⌋ := by
    intro n hn
    have hq0 : 0 ≤ (n : ℚ) * mean_center w1 h1 w2 h2 := mul_nonneg (Nat.cast_nonneg n) hf0
    unfold f32_as_u32
    rw [if_neg (not_lt.mpr hq0)]
    refine Nat.min_eq_right ?_
    rw [Int.toNat_le]
    calc ⌊(n : ℚ) * mean_center w1 h1 w2 h2⌋
        ≤ ⌊(n : ℚ)⌋ := Int.floor_le_floor (mul_le_of_le_one_right (Nat.cast_nonneg n) hf1)
      _ = (n : ℤ) := Int.floor_natCast n
      _ ≤ ((2 ^ 32 - 1 : ℕ) : ℤ) := by exact_mod_cast (by omega : n ≤ 2 ^ 32 - 1)
  refine ⟨rfl, hgen w1 hw1, hgen h1 hh1, ?_⟩
  intro hle1 hle2
  have hfac : mean_center w1 h1 w2 h2 = 1 := by
    unfold mean_center
    rw [if_neg (by omega)]
  have hid : ∀ n : ℕ, n < 2 ^ 32 → f32_as_u32 ((n : ℚ)) = n := by
    intro n hn
    unfold f32_as_u32
    rw [if_neg (not_lt.mpr (Nat.cast_nonneg n)), Int.floor_natCast, Int.toNat_natCast]
    exact Nat.min_eq_right (by omega)
  show (f32_as_u32 ((w1 : ℚ) * mean_center w1 h1 w2 h2),
      f32_as_u32 ((h1 : ℚ) * mean_center w1 h1 w2 h2)) = (w1, h1)
  rw [hfac, mul_one, mul_one, hid w1 hw1, hid h1 hh1]

theorem C5_fit_center_dims_witness :
    ((400 : ℕ) < 2 ^ 32 ∧ (300 : ℕ) < 2 ^ 32) ∧
    (mean_center 400 300 100 100 =
      (if 400 > 100 ∨ 300 > 100 then min ((100 : ℚ) / (400 : ℚ)) ((100 : ℚ) / (300 : ℚ))
       else 1) ∧
    (fit_center_dims 400 300 100 100).1 =
      Int.toNat ⌊(400 : ℚ) * mean_center 400 300 100 100⌋ ∧
    (fit_center_dims 400 300 100 100).2 =
      Int.toNat ⌊(300 : ℚ) * mean_center 400 300 100 100⌋ ∧
    (400 ≤ 100 → 300 ≤ 100 → fit_center_dims 400 300 100 100 = (400, 300))) :=
  ⟨⟨by norm_num, by norm_num⟩, C5_fit_center_dims 400 300 100 100 (by norm_num) (by norm_num)⟩

theorem addwatermark_body_length (logoimage basedimage : Tensor) :
    (addwatermark_body logoimage basedimage).length = basedimage.length := by
  show ((List.range basedimage.length).map _).length = _
  rw [List.length_map, List.length_range]

theorem addwatermark_body_getD (logoimage basedimage : Tensor) {i : ℕ}
    (hi : i < basedimage.length) :
    (addwatermark_body logoimage basedimage).getD i [] =
      if (basedimage.length - logoimage.length) / 2 ≤ i ∧
          i < (basedimage.length - logoimage.length) / 2 + logoimage.length then
        (List.range (basedimage.getD i []).length).map fun x =>
          if ((basedimage.headD []).length - (logoimage.headD []).length) / 2 ≤ x ∧
              x < ((basedimage.headD []).length - (logoimage.headD []).length) / 2 +
                (logoimage.headD []).length then
            blend_pixel logoimage (i - (basedimage.length - logoimage.length) / 2)
              (x - ((basedimage.headD []).length - (logoimage.headD []).length) / 2)
              ((basedimage.getD i []).getD x [])
          else (basedimage.getD i []).getD x []
      else basedimage.getD i [] := by
  show ((List.range basedimage.length).map _).getD i [] = _
  rw [getD_range_map _ _ hi]

/-- C1: for non-empty rectangular four-channel tensors with the overlay no
larger than the base, `addwatermark` succeeds and, at every overlay pixel
`(x, y)`, updates each of the three color channels of the centered base
pixel to `(1 - alpha) * base + alpha * overlay` with
`alpha = overlay[y][x][3]`, the offsets being the truncating halves of the
dimension differences, and then forces that base pixel's alpha channel to
`1.0` regardless of its prior value. -/
theorem C1_addwatermark_blend (logoimage basedimage : Tensor)
    (hl0 : 0 < logoimage.length) (hb0 : 0 < basedimage.length)
    (hwfl : WellFormed logoimage) (hwfb : WellFormed basedimage)
    (hw : width logoimage ≤ width basedimage)
    (hh : height logoimage ≤ height basedimage)
    (x y c : ℕ) (hy : y < height logoimage) (hx : x < width logoimage) :
    (addwatermark logoimage basedimage).1 = Except.ok () ∧
    (c < 3 →
      px (addwatermark logoimage basedimage).2
          (y + (height basedimage - height logoimage) / 2)
          (x + (width basedimage - width logoimage) / 2) c =
        (1 - px logoimage y x 3) *
            px basedimage (y + (height basedimage - height logoimage) / 2)
              (x + (width basedimage - width logoimage) / 2) c
          + px logoimage y x 3 * px logoimage y x c) ∧
    px (addwatermark logoimage basedimage).2
        (y + (height basedimage - height logoimage) / 2)
        (x + (width basedimage - width logoimage) / 2) 3 = 1 := by
  have hne : ¬(logoimage.length = 0 ∨ basedimage.length = 0) := by omega
  have h1 : (addwatermark logoimage basedimage).1 = Except.ok () := by
    unfold addwatermark
    rw [if_neg hne]
  have h2 : (addwatermark logoimage basedimage).2 = addwatermark_body logoimage basedimage := by
    unfold addwatermark
    rw [if_neg hne]
  simp only [width, height] at hw hh hy hx ⊢
  have hyb : y + (basedimage.length - logoimage.length) / 2 < basedimage.length := by omega
  rw [h2]
  set oy := (basedimage.length - logoimage.length) / 2 with hoy
  set ox := ((basedimage.headD []).length - (logoimage.headD []).length) / 2 with hox
  have hrowlen : (basedimage.getD (y + oy) []).length = (basedimage.headD []).length :=
    hwfb.1 _ (getD_mem _ hyb)
  have hxb : x + ox < (basedimage.getD (y + oy) []).length := by
    rw [hrowlen]
    omega
  have hplen : ((basedimage.getD (y + oy) []).getD (x + ox) []).length = 4 :=
    hwfb.2 _ (getD_mem _ hyb) _ (getD_mem _ hxb)
  have hpx : ∀ cc : ℕ, cc < 4 →
      px (addwatermark_body logoimage basedimage) (y + oy) (x + ox) cc =
        (blend_pixel logoimage y x ((basedimage.getD (y + oy) []).getD (x + ox) [])).getD cc 0 := by
    intro cc hcc
    unfold px
    rw [addwatermark_body_getD logoimage basedimage hyb,
      if_pos ⟨by omega, by omega⟩, getD_range_map _ _ hxb,
      if_pos ⟨by omega, by omega⟩]
    have ha : y + oy - oy = y := by omega
    have hb : x + ox - ox = x := by omega
    rw [ha, hb]
  refine ⟨h1, ?_, ?_⟩
  · intro hc
    rw [hpx c (by omega)]
    unfold blend_pixel
    rw [hplen, getD_range_map _ _ (by omega : c < 4), if_pos (by simp [CHANNELS]; omega)]
    rfl
  · rw [hpx 3 (by omega)]
    unfold blend_pixel
    rw [hplen, getD_range_map _ _ (by omega : (3 : ℕ) < 4)]
    rw [if_neg (by simp [CHANNELS]), if_pos rfl]

theorem C1_addwatermark_blend_witness :
    (0 < logo1.length ∧ 0 < base1.length ∧ WellFormed logo1 ∧ WellFormed base1 ∧
      width logo1 ≤ width base1 ∧ height logo1 ≤ height base1) ∧
    ((addwatermark logo1 base1).1 = Except.ok () ∧
    ((0 : ℕ) < 3 →
      px (addwatermark logo1 base1).2 (0 + (height base1 - height logo1) / 2)
          (0 + (width base1 - width logo1) / 2) 0 =
        (1 - px logo1 0 0 3) *
            px base1 (0 + (height base1 - height logo1) / 2)
              (0 + (width base1 - width logo1) / 2) 0
          + px logo1 0 0 3 * px logo1 0 0 0) ∧
    px (addwatermark logo1 base1).2 (0 + (height base1 - height logo1) / 2)
        (0 + (width base1 - width logo1) / 2) 3 = 1) :=
  ⟨⟨by decide, by decide, by decide, by decide, by decide, by decide⟩,
    C1_addwatermark_blend logo1 base1 (by decide) (by decide) (by decide) (by decide)
      (by decide) (by decide) 0 0 0 (by decide) (by decide)⟩

theorem ext_of_getD {α : Type} (d : α) {a b : List α} (hlen : a.length = b.length)
    (h : ∀ i < a.length, a.getD i d = b.getD i d) : a = b := by
  apply List.ext_getElem?
  intro i
  by_cases hi : i < a.length
  · have hib : i < b.length := by omega
    rw [List.getElem?_eq_getElem hi, List.getElem?_eq_getElem hib]
    have hgd := h i hi
    rw [List.getD_eq_getElem a d hi, List.getD_eq_getElem b d hib] at hgd
    rw [hgd]
  · rw [List.getElem?_eq_none (by omega), List.getElem?_eq_none (by omega)]

/-- C7: `addwatermark` leaves every base pixel outside the centered overlay
window `[offset_x, offset_x + lwidth) × [offset_y, offset_y + lheight)`
completely untouched, and on the spec's concrete example — a 10×10 fully
opaque solid red overlay over a 20×20 solid white base — the offsets are
`(5, 5)`, the call succeeds, and the result is pure red with alpha `1.0`
exactly on `[5, 15) × [5, 15)` with every other pixel still white. -/
theorem C7_watermark_frame (logoimage basedimage : Tensor)
    (hl0 : logoimage.length ≠ 0) (hb0 : basedimage.length ≠ 0) :
    (∀ i x : ℕ,
      (i < (height basedimage - height logoimage) / 2 ∨
        (height basedimage - height logoimage) / 2 + height logoimage ≤ i ∨
        x < (width basedimage - width logoimage) / 2 ∨
        (width basedimage - width logoimage) / 2 + width logoimage ≤ x) →
      (((addwatermark logoimage basedimage).2.getD i []).getD x [] =
        (basedimage.getD i []).getD x [])) ∧
    (width base20 - width logo10) / 2 = 5 ∧
    (height base20 - height logo10) / 2 = 5 ∧
    (addwatermark logo10 base20).1 = Except.ok () ∧
    (addwatermark logo10 base20).2 = watermarked20 := by
  have hne : ¬(logoimage.length = 0 ∨ basedimage.length = 0) := by
    exact not_or.mpr ⟨hl0, hb0⟩
  have h2 : (addwatermark logoimage basedimage).2 = addwatermark_body logoimage basedimage := by
    unfold addwatermark
    rw [if_neg hne]
  have hne20 : ¬(logo10.length = 0 ∨ base20.length = 0) := by decide
  have h220 : (addwatermark logo10 base20).2 = addwatermark_body logo10 base20 := by
    unfold addwatermark
    rw [if_neg hne20]
  refine ⟨?_, by decide, by decide, ?_, ?_⟩
  · intro i x hout
    rw [h2]
    simp only [width, height] at hout
    by_cases hi : i < basedimage.length
    · rw [addwatermark_body_getD logoimage basedimage hi]
      by_cases hwin : (basedimage.length - logoimage.length) / 2 ≤ i ∧
          i < (basedimage.length - logoimage.length) / 2 + logoimage.length
      · rw [if_pos hwin]
        by_cases hx2 : x < (basedimage.getD i []).length
        · rw [getD_range_map _ _ hx2, if_neg (by omega)]
        · rw [getD_range_map_default _ _ (Nat.le_of_not_lt hx2),
            List.getD_eq_default _ _ (Nat.le_of_not_lt hx2)]
      · rw [if_neg hwin]
    · have hbl : (addwatermark_body logoimage basedimage).getD i [] = [] :=
        List.getD_eq_default _ _ (by rw [addwatermark_body_length]; omega)
      have hbl2 : basedimage.getD i [] = [] := List.getD_eq_default _ _ (by omega)
      rw [hbl, hbl2]
  · unfold addwatermark
    rw [if_neg hne20]
  · rw [h220]
    have hlogo_row : ∀ y' < 10, logo10.getD y' [] = List.replicate 10 [1, 0, 0, 1] := by
      intro y' hy'
      unfold logo10
      rw [List.getD_eq_getElem _ _ (by simpa using hy'), List.getElem_replicate]
    have hbase_row : ∀ i < 20, base20.getD i [] = List.replicate 20 [1, 1, 1, 1] := by
      intro i hi
      unfold base20
      rw [List.getD_eq_getElem _ _ (by simpa using hi), List.getElem_replicate]
    have hblend : ∀ y' < 10, ∀ x' < 10,
        blend_pixel logo10 y' x' [1, 1, 1, 1] = [1, 0, 0, 1] := by
      intro y' hy' x' hx'
      have hpxl : ∀ c : ℕ, px logo10 y' x' c = [1, 0, 0, 1].getD c 0 := by
        intro c
        unfold px
        rw [hlogo_row y' hy',
          List.getD_eq_getElem (List.replicate 10 ([1, 0, 0, 1] : Pixel)) []
            (by simpa using hx'),
          List.getElem_replicate]
      unfold blend_pixel
      norm_num [List.range_succ, CHANNELS, hpxl]
    refine ext_of_getD ([] : Row) ?_ ?_
    · rw [addwatermark_body_length]
      simp [base20, watermarked20]
    · intro i hi
      rw [addwatermark_body_length] at hi
      have hi20 : i < 20 := by simpa [base20] using hi
      rw [addwatermark_body_getD logo10 base20 hi]
      have e1 : (base20.length - logo10.length) / 2 = 5 := by simp [base20, logo10]
      have e2 : ((base20.headD []).length - (logo10.headD []).length) / 2 = 5 := by
        simp [base20, logo10]
      have e3 : logo10.length = 10 := by simp [logo10]
      have e4 : (logo10.headD []).length = 10 := by simp [logo10]
      have hw20 : watermarked20.getD i [] = (List.range 20).map fun x =>
          if 5 ≤ i ∧ i < 15 ∧ 5 ≤ x ∧ x < 15 then ([1, 0, 0, 1] : Pixel)
          else [1, 1, 1, 1] := by
        unfold watermarked20
        rw [getD_range_map _ _ hi20]
      rw [e1, e2, e3, e4, hbase_row i hi20, hw20, List.length_replicate]
      by_cases hwin : 5 ≤ i ∧ i < 15
      · rw [if_pos (by omega : 5 ≤ i ∧ i < 5 + 10)]
        refine List.map_congr_left fun x hx => ?_
        have hx20 : x < 20 := List.mem_range.mp hx
        have hrepl : (List.replicate 20 ([1, 1, 1, 1] : Pixel)).getD x [] = [1, 1, 1, 1] := by
          rw [List.getD_eq_getElem _ _ (by simpa using hx20), List.getElem_replicate]
        rw [hrepl]
        by_cases hxwin : 5 ≤ x ∧ x < 15
        · rw [if_pos (by omega : 5 ≤ x ∧ x < 5 + 10), if_pos (by omega),
            hblend (i - 5) (by omega) (x - 5) (by omega)]
        · rw [if_neg (by omega), if_neg (by omega)]
      · rw [if_neg (by omega)]
        have hconst : ((List.range 20).map fun x =>
            if 5 ≤ i ∧ i < 15 ∧ 5 ≤ x ∧ x < 15 then ([1, 0, 0, 1] : Pixel)
            else [1, 1, 1, 1]) = (List.range 20).map fun _ => ([1, 1, 1, 1] : Pixel) :=
          List.map_congr_left fun x _ => by rw [if_neg (by omega)]
        rw [hconst, List.map_const', List.length_range]

theorem C7_watermark_frame_witness :
    (logo10.length ≠ 0 ∧ base20.length ≠ 0) ∧
    ((∀ i x : ℕ,
      (i < (height base20 - height logo10) / 2 ∨
        (height base20 - height logo10) / 2 + height logo10 ≤ i ∨
        x < (width base20 - width logo10) / 2 ∨
        (width base20 - width logo10) / 2 + width logo10 ≤ x) →
      (((addwatermark logo10 base20).2.getD i []).getD x [] =
        (base20.getD i []).getD x [])) ∧
    (width base20 - width logo10) / 2 = 5 ∧
    (height base20 - height logo10) / 2 = 5 ∧
    (addwatermark logo10 base20).1 = Except.ok () ∧
    (addwatermark logo10 base20).2 = watermarked20) :=
  ⟨⟨by decide, by decide⟩, C7_watermark_frame logo10 base20 (by decide) (by decide)⟩

theorem f32_as_i32_eq_floor {q : ℚ} (hq : 0 ≤ q) : f32_as_i32 q = ⌊q⌋ := by
  unfold f32_as_i32
  rcases eq_or_lt_of_le hq with h0 | h0
  · rw [← h0]
    simp
  · have hnum : 0 < q.num := Rat.num_pos.mpr h0
    rw [Int.sign_eq_one_of_pos hnum, one_mul, Rat.floor_def, Int.natCast_div]
    exact congrArg (fun z => z / (q.den : ℤ)) (Int.natAbs_of_nonneg (le_of_lt hnum))

theorem f32_as_i32_natCast (n : ℕ) : f32_as_i32 ((n : ℕ) : ℚ) = (n : ℤ) := by
  rw [f32_as_i32_eq_floor (by positivity), Int.floor_natCast]

/-- C2: `resize` writes, at every destination pixel `(x, y)`, either the
zero pixel `(0,0,0,0)` — exactly when the floor `(x0, y0)` of the mapped
source coordinates `(srcX, srcY) = (x·oldW/newW, y·oldH/newH)` fails the
interior test `0 ≤ x0 < oldW - 1`, `0 ≤ y0 < oldH - 1` — or the standard
bilinear blend of the four surrounding source pixels with the fractional
remainders `(dx, dy)` as weights, per channel. -/
theorem C2_resize_boundary_bilinear (t : Tensor) (W H : ℕ)
    (h0 : 0 < t.length) (hw0 : 0 < width t) (hrect : Rect t (width t))
    (x y : ℕ) (hy : y < H) (hx : x < W)
    (srcX srcY : ℚ) (x0 y0 : ℤ) (dx dy : ℚ)
    (hsx : srcX = ((x : ℚ) * (width t : ℚ)) / (W : ℚ))
    (hsy : srcY = ((y : ℚ) * (height t : ℚ)) / (H : ℚ))
    (hx0 : x0 = ⌊srcX⌋) (hy0 : y0 = ⌊srcY⌋)
    (hdx : dx = srcX - (x0 : ℚ)) (hdy : dy = srcY - (y0 : ℚ)) :
    ((x0 < 0 ∨ ((width t - 1 : ℕ) : ℤ) ≤ x0 ∨ y0 < 0 ∨ ((height t - 1 : ℕ) : ℤ) ≤ y0) →
      ((resize t W H).getD y []).getD x [] = List.replicate 4 0) ∧
    (¬(x0 < 0 ∨ ((width t - 1 : ℕ) : ℤ) ≤ x0 ∨ y0 < 0 ∨ ((height t - 1 : ℕ) : ℤ) ≤ y0) →
      ∀ c < 4, px (resize t W H) y x c =
        (1 - dx) * (1 - dy) * px t y0.toNat x0.toNat c
          + dx * (1 - dy) * px t y0.toNat (x0 + 1).toNat c
          + (1 - dx) * dy * px t (y0 + 1).toNat x0.toNat c
          + dx * dy * px t (y0 + 1).toNat (x0 + 1).toNat c) := by
  simp only [width, height] at hw0 hsx hsy ⊢
  subst hsx hsy hx0 hy0 hdx hdy
  have hsx0 : (0 : ℚ) ≤ ((x : ℚ) * (((t.headD []).length : ℕ) : ℚ)) / ((W : ℕ) : ℚ) := by
    positivity
  have hsy0 : (0 : ℚ) ≤ ((y : ℚ) * ((t.length : ℕ) : ℚ)) / ((H : ℕ) : ℚ) := by
    positivity
  constructor
  · intro hcond
    simp only [resize]
    rw [getD_range_map _ _ hy, getD_range_map _ _ hx]
    simp only [f32_as_i32_eq_floor hsx0, f32_as_i32_eq_floor hsy0]
    rw [if_pos hcond]
    rfl
  · intro hcond c hc
    simp only [px, resize]
    rw [getD_range_map _ _ hy, getD_range_map _ _ hx]
    simp only [f32_as_i32_eq_floor hsx0, f32_as_i32_eq_floor hsy0]
    rw [if_neg hcond]
    have hc4 : c < CHANNELS := hc
    rw [getD_range_map _ _ hc4]

theorem C2_resize_boundary_bilinear_witness :
    (0 < T224.length ∧ 0 < width T224 ∧ Rect T224 (width T224) ∧ (1 : ℕ) < 4 ∧ (1 : ℕ) < 4) ∧
    (((⌊((1 : ℚ) * (width T224 : ℚ)) / ((4 : ℕ) : ℚ)⌋ < 0 ∨
        ((width T224 - 1 : ℕ) : ℤ) ≤ ⌊((1 : ℚ) * (width T224 : ℚ)) / ((4 : ℕ) : ℚ)⌋ ∨
        ⌊((1 : ℚ) * (height T224 : ℚ)) / ((4 : ℕ) : ℚ)⌋ < 0 ∨
        ((height T224 - 1 : ℕ) : ℤ) ≤ ⌊((1 : ℚ) * (height T224 : ℚ)) / ((4 : ℕ) : ℚ)⌋) →
      ((resize T224 4 4).getD 1 []).getD 1 [] = List.replicate 4 0) ∧
    (¬(⌊((1 : ℚ) * (width T224 : ℚ)) / ((4 : ℕ) : ℚ)⌋ < 0 ∨
        ((width T224 - 1 : ℕ) : ℤ) ≤ ⌊((1 : ℚ) * (width T224 : ℚ)) / ((4 : ℕ) : ℚ)⌋ ∨
        ⌊((1 : ℚ) * (height T224 : ℚ)) / ((4 : ℕ) : ℚ)⌋ < 0 ∨
        ((height T224 - 1 : ℕ) : ℤ) ≤ ⌊((1 : ℚ) * (height T224 : ℚ)) / ((4 : ℕ) : ℚ)⌋) →
      ∀ c < 4, px (resize T224 4 4) 1 1 c =
        (1 - (((1 : ℚ) * (width T224 : ℚ)) / ((4 : ℕ) : ℚ) -
            (⌊((1 : ℚ) * (width T224 : ℚ)) / ((4 : ℕ) : ℚ)⌋ : ℚ))) *
            (1 - (((1 : ℚ) * (height T224 : ℚ)) / ((4 : ℕ) : ℚ) -
              (⌊((1 : ℚ) * (height T224 : ℚ)) / ((4 : ℕ) : ℚ)⌋ : ℚ))) *
            px T224 (⌊((1 : ℚ) * (height T224 : ℚ)) / ((4 : ℕ) : ℚ)⌋).toNat
              (⌊((1 : ℚ) * (width T224 : ℚ)) / ((4 : ℕ) : ℚ)⌋).toNat c
          + (((1 : ℚ) * (width T224 : ℚ)) / ((4 : ℕ) : ℚ) -
              (⌊((1 : ℚ) * (width T224 : ℚ)) / ((4 : ℕ) : ℚ)⌋ : ℚ)) *
            (1 - (((1 : ℚ) * (height T224 : ℚ)) / ((4 : ℕ) : ℚ) -
              (⌊((1 : ℚ) * (height T224 : ℚ)) / ((4 : ℕ) : ℚ)⌋ : ℚ))) *
            px T224 (⌊((1 : ℚ) * (height T224 : ℚ)) / ((4 : ℕ) : ℚ)⌋).toNat
              ((⌊((1 : ℚ) * (width T224 : ℚ)) / ((4 : ℕ) : ℚ)⌋ + 1)).toNat c
          + (1 - (((1 : ℚ) * (width T224 : ℚ)) / ((4 : ℕ) : ℚ) -
              (⌊((1 : ℚ) * (width T224 : ℚ)) / ((4 : ℕ) : ℚ)⌋ : ℚ))) *
            (((1 : ℚ) * (height T224 : ℚ)) / ((4 : ℕ) : ℚ) -
              (⌊((1 : ℚ) * (height T224 : ℚ)) / ((4 : ℕ) : ℚ)⌋ : ℚ)) *
            px T224 ((⌊((1 : ℚ) * (height T224 : ℚ)) / ((4 : ℕ) : ℚ)⌋ + 1)).toNat
              (⌊((1 : ℚ) * (width T224 : ℚ)) / ((4 : ℕ) : ℚ)⌋).toNat c
          + (((1 : ℚ) * (width T224 : ℚ)) / ((4 : ℕ) : ℚ) -
              (⌊((1 : ℚ) * (width T224 : ℚ)) / ((4 : ℕ) : ℚ)⌋ : ℚ)) *
            (((1 : ℚ) * (height T224 : ℚ)) / ((4 : ℕ) : ℚ) -
              (⌊((1 : ℚ) * (height T224 : ℚ)) / ((4 : ℕ) : ℚ)⌋ : ℚ)) *
            px T224 ((⌊((1 : ℚ) * (height T224 : ℚ)) / ((4 : ℕ) : ℚ)⌋ + 1)).toNat
              ((⌊((1 : ℚ) * (width T224 : ℚ)) / ((4 : ℕ) : ℚ)⌋ + 1)).toNat c)) :=
  ⟨⟨by decide, by decide, by decide, by decide, by decide⟩,
    C2_resize_boundary_bilinear T224 4 4 (by decide) (by decide) (by decide) 1 1
      (by decide) (by decide) _ _ _ _ _ _ rfl rfl rfl rfl rfl rfl⟩

/-- C9: resizing a non-empty rectangular tensor to its own dimensions
leaves every interior pixel (destination pixels whose mapped source floor
coordinates satisfy `x0 < oldWidth - 1` and `y0 < oldHeight - 1`)
unchanged in all four channels. -/
theorem C9_resize_identity (t : Tensor) (h0 : 0 < t.length) (hw0 : 0 < width t)
    (hrect : Rect t (width t)) (x y c : ℕ)
    (hy : y < height t - 1) (hx : x < width t - 1) (hc : c < 4) :
    px (resize t (width t) (height t)) y x c = px t y x c := by
  simp only [width, height] at hw0 hy hx ⊢
  have hyH : y < t.length := by omega
  have hxW : x < (t.headD []).length := by omega
  simp only [px, resize]
  rw [getD_range_map _ _ hyH, getD_range_map _ _ hxW]
  have hwne : (((t.headD []).length : ℕ) : ℚ) ≠ 0 := by
    exact_mod_cast (by omega : (t.headD []).length ≠ 0)
  have hhne : ((t.length : ℕ) : ℚ) ≠ 0 := by
    exact_mod_cast (by omega : t.length ≠ 0)
  have hsx : ((x : ℚ) * (((t.headD []).length : ℕ) : ℚ)) / (((t.headD []).length : ℕ) : ℚ) =
      ((x : ℕ) : ℚ) := mul_div_cancel_right₀ _ hwne
  have hsy : ((y : ℚ) * ((t.length : ℕ) : ℚ)) / ((t.length : ℕ) : ℚ) = ((y : ℕ) : ℚ) :=
    mul_div_cancel_right₀ _ hhne
  simp only [hsx, hsy, f32_as_i32_natCast]
  rw [if_neg (by omega)]
  have hc4 : c < CHANNELS := hc
  rw [getD_range_map _ _ hc4]
  have e1 : ((x : ℤ)).toNat = x := by omega
  have e2 : ((y : ℤ)).toNat = y := by omega
  have e3 : (((x : ℕ) : ℚ) - (((x : ℕ) : ℤ) : ℚ)) = 0 := by push_cast; ring
  have e4 : (((y : ℕ) : ℚ) - (((y : ℕ) : ℤ) : ℚ)) = 0 := by push_cast; ring
  rw [e1, e2, e3, e4]
  ring

theorem C9_resize_identity_witness :
    (0 < T224.length ∧ 0 < width T224 ∧ Rect T224 (width T224) ∧
      (0 : ℕ) < height T224 - 1 ∧ (0 : ℕ) < width T224 - 1 ∧ (0 : ℕ) < 4) ∧
    px (resize T224 (width T224) (height T224)) 0 0 0 = px T224 0 0 0 :=
  ⟨⟨by decide, by decide, by decide, by decide, by decide, by decide⟩,
    C9_resize_identity T224 (by decide) (by decide) (by decide) 0 0 0
      (by decide) (by decide) (by decide)⟩

theorem bind_some_eq {α β : Type} (a : α) (f : α → Option β) : (some a >>= f) = f a := rfl

theorem getElem?_eq_some_getD {α : Type} (d : α) {l : List α} {i : ℕ} (h : i < l.length) :
    l[i]? = some (l.getD i d) := by
  rw [List.getD_eq_getElem l d h]
  exact List.getElem?_eq_getElem h

/-- C6: converting a valid decoded image to a tensor (each channel byte
divided by 255) and back (each channel multiplied by 255 and truncated)
reproduces every original channel byte within ±1; in the exact rational
model of `f32` the round trip is in fact exact. -/
theorem C6_round_trip (img : DynImage) (hv : img.Valid) (x y i : ℕ)
    (hx : x < img.width) (hy : y < img.height) (hi : i < 4) :
    ((to_image_buffer (to_tensor img)).get_pixel x y).getD i 0 =
      (img.get_pixel x y).getD i 0 ∧
    |((((to_image_buffer (to_tensor img)).get_pixel x y).getD i 0 : ℕ) : ℤ) -
        (((img.get_pixel x y).getD i 0 : ℕ) : ℤ)| ≤ 1 := by
  obtain ⟨hlen, hbyte⟩ := hv x hx y hy
  have hrow : (to_tensor img).getD y [] =
      (List.range img.width).map fun x =>
        (img.get_pixel x y).map fun c : ℕ => (c : ℚ) / 255 := by
    unfold to_tensor
    rw [getD_range_map _ _ hy]
  have hpx : ∀ j : ℕ, j < 4 →
      px (to_tensor img) y x j = (((img.get_pixel x y).getD j 0 : ℕ) : ℚ) / 255 := by
    intro j hj
    unfold px
    rw [hrow, getD_range_map _ _ hx,
      List.getD_eq_getElem _ _ (by rw [List.length_map, hlen]; exact hj), List.getElem_map,
      ← List.getD_eq_getElem _ _ (by rw [hlen]; exact hj)]
  have hb : ∀ j : ℕ, j < 4 → (img.get_pixel x y).getD j 0 < 256 := by
    intro j hj
    exact hbyte _ (getD_mem _ (by rw [hlen]; exact hj))
  have hcast : ∀ b : ℕ, b < 256 → f32_as_u8 (some ((b : ℚ) / 255 * 255)) = b := by
    intro b hbb
    have h255 : ((b : ℚ) / 255 * 255) = (b : ℚ) := div_mul_cancel₀ _ (by norm_num)
    rw [h255]
    simp only [f32_as_u8]
    rw [if_neg (not_lt.mpr (Nat.cast_nonneg b)), Int.floor_natCast, Int.toNat_natCast]
    exact Nat.min_eq_right (by omega)
  have hmain : ((to_image_buffer (to_tensor img)).get_pixel x y).getD i 0 =
      (img.get_pixel x y).getD i 0 := by
    show ([ f32_as_u8 (some (px (to_tensor img) y x 0 * 255))
          , f32_as_u8 (some (px (to_tensor img) y x 1 * 255))
          , f32_as_u8 (some (px (to_tensor img) y x 2 * 255))
          , f32_as_u8 (some (px (to_tensor img) y x 3 * 255))].getD i 0) = _
    interval_cases i <;>
      simp only [List.getD_cons_zero, List.getD_cons_succ] <;>
      rw [hpx _ (by omega), hcast _ (hb _ (by omega))]
  refine ⟨hmain, ?_⟩
  rw [hmain]
  simp

theorem C6_round_trip_witness :
    (img1.Valid ∧ (0 : ℕ) < img1.width ∧ (0 : ℕ) < img1.height ∧ (2 : ℕ) < 4) ∧
    (((to_image_buffer (to_tensor img1)).get_pixel 0 0).getD 2 0 =
      (img1.get_pixel 0 0).getD 2 0 ∧
    |((((to_image_buffer (to_tensor img1)).get_pixel 0 0).getD 2 0 : ℕ) : ℤ) -
        (((img1.get_pixel 0 0).getD 2 0 : ℕ) : ℤ)| ≤ 1) :=
  ⟨⟨by decide, by decide, by decide, by decide⟩,
    C6_round_trip img1 (by decide) 0 0 2 (by decide) (by decide) (by decide)⟩

/-- C10: `to_image_buffer` is panic-free on any non-empty well-formed
tensor, whatever the channel values: the bounds-checking shadow succeeds
and computes exactly the buffer's pixels; and the channel cast saturates —
`v ≥ 1` gives byte 255, `v ≤ 0` gives byte 0, the result never exceeds 255
(no wrap-around), and a NaN channel gives byte 0. -/
theorem C10_to_image_buffer_safe (t : Tensor) (h0 : 0 < t.length) (hwf : WellFormed t) :
    to_image_buffer_checked t =
      some ((List.range t.length).map fun y =>
        (List.range (width t)).map fun x => (to_image_buffer t).get_pixel x y) ∧
    (∀ q : ℚ, 1 ≤ q → f32_as_u8 (some (q * 255)) = 255) ∧
    (∀ q : ℚ, q ≤ 0 → f32_as_u8 (some (q * 255)) = 0) ∧
    (∀ q : ℚ, f32_as_u8 (some q) ≤ 255) ∧
    f32_as_u8 none = 0 := by
  refine ⟨?_, ?_, ?_, ?_, rfl⟩
  · unfold to_image_buffer_checked
    rw [getElem?_eq_some_getD [] h0, bind_some_eq]
    have hhead : t.getD 0 [] = t.headD [] := by cases t <;> rfl
    rw [hhead]
    refine mapM_option_eq_map ?_
    intro y hy
    have hyl : y < t.length := List.mem_range.mp hy
    rw [getElem?_eq_some_getD [] hyl, bind_some_eq]
    have hrl : (t.getD y []).length = width t := hwf.1 _ (getD_mem _ hyl)
    refine mapM_option_eq_map ?_
    intro xx hxx
    have hxl : xx < (t.getD y []).length := by
      rw [hrl]
      exact List.mem_range.mp hxx
    rw [getElem?_eq_some_getD [] hxl, bind_some_eq]
    have hpl : ((t.getD y []).getD xx []).length = 4 :=
      hwf.2 _ (getD_mem _ hyl) _ (getD_mem _ hxl)
    rw [getElem?_eq_some_getD 0 (by omega : (0 : ℕ) < ((t.getD y []).getD xx []).length),
      bind_some_eq,
      getElem?_eq_some_getD 0 (by omega : (1 : ℕ) < ((t.getD y []).getD xx []).length),
      bind_some_eq,
      getElem?_eq_some_getD 0 (by omega : (2 : ℕ) < ((t.getD y []).getD xx []).length),
      bind_some_eq,
      getElem?_eq_some_getD 0 (by omega : (3 : ℕ) < ((t.getD y []).getD xx []).length),
      bind_some_eq]
    rfl
  · intro q hq
    simp only [f32_as_u8]
    rw [if_neg (not_lt.mpr (by linarith : (0 : ℚ) ≤ q * 255))]
    have hfl : (255 : ℤ) ≤ ⌊q * 255⌋ := Int.le_floor.mpr (by push_cast; linarith)
    exact Nat.min_eq_left (by omega)
  · intro q hq
    simp only [f32_as_u8]
    by_cases hneg : q * 255 < 0
    · rw [if_pos hneg]
    · rw [if_neg hneg]
      have hz : q * 255 = 0 := le_antisymm (by linarith) (not_lt.mp hneg)
      rw [hz]
      simp
  · intro q
    simp only [f32_as_u8]
    by_cases hneg : q < 0
    · rw [if_pos hneg]
      omega
    · rw [if_neg hneg]
      exact min_le_left _ _

theorem C10_to_image_buffer_safe_witness :
    (0 < tneg.length ∧ WellFormed tneg) ∧
    (to_image_buffer_checked tneg =
      some ((List.range tneg.length).map fun y =>
        (List.range (width tneg)).map fun x => (to_image_buffer tneg).get_pixel x y) ∧
    (∀ q : ℚ, 1 ≤ q → f32_as_u8 (some (q * 255)) = 255) ∧
    (∀ q : ℚ, q ≤ 0 → f32_as_u8 (some (q * 255)) = 0) ∧
    (∀ q : ℚ, f32_as_u8 (some q) ≤ 255) ∧
    f32_as_u8 none = 0) :=
  ⟨⟨by decide, by decide⟩, C10_to_image_buffer_safe tneg (by decide) (by decide)⟩

/-- C8: under the spec's precondition — both tensors non-empty, rectangular
and four-channel, overlay no larger than the base — the non-error path of
`addwatermark` is panic-free: the offset subtractions cannot underflow and
every index into the base and overlay (the window rows and columns, and
channels `0..3`) is in bounds, witnessed by the bounds-checking shadow
succeeding with exactly the blended base. -/
theorem C8_addwatermark_safe (logoimage basedimage : Tensor)
    (hl0 : 0 < logoimage.length) (hb0 : 0 < basedimage.length)
    (hwfl : WellFormed logoimage) (hwfb : WellFormed basedimage)
    (hw : width logoimage ≤ width basedimage)
    (hh : height logoimage ≤ height basedimage) :
    addwatermark_checked logoimage basedimage =
      some (addwatermark_body logoimage basedimage) := by
  simp only [width, height] at hw hh
  unfold addwatermark_checked
  rw [getElem?_eq_some_getD [] hb0, bind_some_eq, getElem?_eq_some_getD [] hl0, bind_some_eq]
  have hheadb : basedimage.getD 0 [] = basedimage.headD [] := by cases basedimage <;> rfl
  have hheadl : logoimage.getD 0 [] = logoimage.headD [] := by cases logoimage <;> rfl
  rw [hheadb, hheadl, if_pos ⟨hw, hh⟩]
  refine mapM_option_eq_map ?_
  intro i hi
  have hil : i < basedimage.length := List.mem_range.mp hi
  rw [getElem?_eq_some_getD [] hil, bind_some_eq]
  simp only []
  have hrl : (basedimage.getD i []).length = (basedimage.headD []).length :=
    hwfb.1 _ (getD_mem _ hil)
  by_cases hwin : (basedimage.length - logoimage.length) / 2 ≤ i ∧
      i < (basedimage.length - logoimage.length) / 2 + logoimage.length
  · rw [if_pos hwin, if_pos hwin]
    refine mapM_option_eq_map ?_
    intro xx hxx
    have hxl : xx < (basedimage.getD i []).length := List.mem_range.mp hxx
    by_cases hcol : ((basedimage.headD []).length - (logoimage.headD []).length) / 2 ≤ xx ∧
        xx < ((basedimage.headD []).length - (logoimage.headD []).length) / 2 +
          (logoimage.headD []).length
    · rw [if_pos hcol, if_pos hcol]
      have hll : i - (basedimage.length - logoimage.length) / 2 < logoimage.length := by
        omega
      rw [getElem?_eq_some_getD [] hll, bind_some_eq]
      have hlrl :
          (logoimage.getD (i - (basedimage.length - logoimage.length) / 2) []).length =
            (logoimage.headD []).length := hwfl.1 _ (getD_mem _ hll)
      have hlxl : xx - ((basedimage.headD []).length - (logoimage.headD []).length) / 2 <
          (logoimage.getD (i - (basedimage.length - logoimage.length) / 2) []).length := by
        rw [hlrl]
        omega
      rw [getElem?_eq_some_getD [] hlxl, bind_some_eq]
      have hlpl :
          ((logoimage.getD (i - (basedimage.length - logoimage.length) / 2) []).getD
            (xx - ((basedimage.headD []).length - (logoimage.headD []).length) / 2) []).length =
            4 := hwfl.2 _ (getD_mem _ hll) _ (getD_mem _ hlxl)
      rw [getElem?_eq_some_getD 0 (by omega), bind_some_eq,
        getElem?_eq_some_getD [] hxl, bind_some_eq]
      have hpl : ((basedimage.getD i []).getD xx []).length = 4 :=
        hwfb.2 _ (getD_mem _ hil) _ (getD_mem _ hxl)
      rw [if_pos (by omega)]
      rfl
    · rw [if_neg hcol, if_neg hcol, getElem?_eq_some_getD [] hxl]
  · rw [if_neg hwin, if_neg hwin]
    rfl

theorem C8_addwatermark_safe_witness :
    (0 < logo1.length ∧ 0 < base1.length ∧ WellFormed logo1 ∧ WellFormed base1 ∧
      width logo1 ≤ width base1 ∧ height logo1 ≤ height base1) ∧
    addwatermark_checked logo1 base1 = some (addwatermark_body logo1 base1) :=
  ⟨⟨by decide, by decide, by decide, by decide, by decide, by decide⟩,
    C8_addwatermark_safe logo1 base1 (by decide) (by decide) (by decide) (by decide)
      (by decide) (by decide)⟩

end Imagetor
